import Mathlib

set_option maxRecDepth 8000

/-!
Shallow embedding of the brewdiff reconciliation pipeline: collecting the
installed Homebrew state, extracting the declared intent from a nix-darwin
profile, computing the category-wise diff, and rendering it.  Rust
`HashSet<String>` is modelled as `Finset String`, `HashMap<String, String>`
as an association list with overwriting insert, the filesystem as a partial
map from paths to file contents, and external processes as explicit query
results.  The string primitives used by the sources (`trim`, `starts_with`,
`lines`, `split_whitespace`, `split`, quote scanning) are modelled as
structural functions on `List Char`.
-/

/-! ### Character constants (kept as codepoints to stay kernel-friendly) -/

def newlineChar : Char := Char.ofNat 10

def crChar : Char := Char.ofNat 13

def quoteChar : Char := Char.ofNat 34

/-! ### String primitives -/

/-- Split a character list at every character satisfying `p`; pieces may be
empty and the result is always non-empty. -/
def splitByP (p : Char → Bool) : List Char → List (List Char)
  | [] => [[]]
  | c :: cs =>
    match splitByP p cs with
    | [] => [[]]
    | w :: ws => if p c then [] :: w :: ws else (c :: w) :: ws

/-- Drop one trailing carriage return, as Rust `str::lines` does for lines
terminated by `\r\n`. -/
def stripCR (l : List Char) : List Char :=
  if l.getLast? == some crChar then l.dropLast else l

/-- Helper for `rustLines`: every piece except the last was terminated by a
newline, so it loses a trailing CR; a final empty piece is dropped. -/
def rustLinesAux : List (List Char) → List (List Char)
  | [] => []
  | [last] => if last.isEmpty then [] else [last]
  | p :: ps => stripCR p :: rustLinesAux ps

/-- Rust `str::lines`: split on `\n`, strip a `\r` from `\r\n` endings, and
do not produce a final empty line for a trailing terminator. -/
def rustLines (s : String) : List String :=
  (rustLinesAux (splitByP (fun c => c == newlineChar) s.data)).map String.mk

/-- Rust `str::split_whitespace`: maximal runs of non-whitespace characters. -/
def strWords (s : String) : List String :=
  ((splitByP Char.isWhitespace s.data).filter (fun w => !w.isEmpty)).map String.mk

/-- Rust `str::trim`: drop whitespace from both ends. -/
def trimL (l : List Char) : List Char :=
  ((l.dropWhile Char.isWhitespace).reverse.dropWhile Char.isWhitespace).reverse

def strTrim (s : String) : String := String.mk (trimL s.data)

/-- Rust `str::starts_with`. -/
def strStartsWith (s pre : String) : Bool := pre.data.isPrefixOf s.data

/-- Rust `[T]::join(" ")` / `Vec::join(" ")` on strings. -/
def joinSpaces : List String → String
  | [] => ""
  | [w] => w
  | w :: ws => w ++ " " ++ joinSpaces ws

/-- Split at the first occurrence of `sep`, returning the parts before and
after it (`none` when `sep` does not occur). -/
def firstSplit (sep : List Char) : List Char → Option (List Char × List Char)
  | [] => none
  | c :: cs =>
    if sep.isPrefixOf (c :: cs) then some ([], (c :: cs).drop sep.length)
    else (firstSplit sep cs).map (fun q => (c :: q.1, q.2))

/-- The second piece of Rust `str::split(sep)`, i.e. `split(sep).nth(1)`:
the text after the first occurrence of `sep`, truncated at the next one. -/
def splitNth1 (sep : List Char) (l : List Char) : Option (List Char) :=
  (firstSplit sep l).map fun q =>
    match firstSplit sep q.2 with
    | some r => r.1
    | none => q.2

/-! ### Association-list model of `HashMap<String, String>` -/

/-- `HashMap::insert`: overwrite the value when the key is present,
otherwise add the binding. -/
def insertReplace (m : List (String × String)) (kv : String × String) :
    List (String × String) :=
  if m.any (fun e => e.1 == kv.1) then
    m.map (fun e => if e.1 == kv.1 then kv else e)
  else m ++ [kv]

/-- The key set of the map. -/
def mapKeys (m : List (String × String)) : Finset String :=
  (m.map Prod.fst).toFinset

/-! ### Error type (src/error.rs) -/

inductive HError where
  | HomebrewNotFound
  | NoActivationScript (path : String)
  | BrewfileNotFound
  | ParseError (msg : String)
  | Io (msg : String)
  | Regex (msg : String)
  | Utf8 (msg : String)
  | CommandFailed (msg : String)
deriving DecidableEq, Repr

/-! ### Intent (src/intent.rs) -/

/-- What nix-darwin wants to be installed. -/
@[ext]
structure HomebrewIntent where
  brews : Finset String
  casks : Finset String
  taps : Finset String
  mas_apps : Finset String
deriving DecidableEq

def HomebrewIntent.default : HomebrewIntent := ⟨∅, ∅, ∅, ∅⟩

/-- `HomebrewIntent::has_packages`: the tap set is not consulted. -/
def HomebrewIntent.has_packages (i : HomebrewIntent) : Bool :=
  !decide (i.brews = ∅) || !decide (i.casks = ∅) || !decide (i.mas_apps = ∅)

/-- `HomebrewIntent::extract_quoted_value`: the substring between the first
`"` and the next `"` after it; `none` when either quote is missing. -/
def HomebrewIntent.extract_quoted_value (line : String) : Option String :=
  match line.data.dropWhile (fun c => c != quoteChar) with
  | [] => none
  | _ :: rest =>
    if rest.any (fun c => c == quoteChar) then
      some (String.mk (rest.takeWhile (fun c => c != quoteChar)))
    else none

/-- `HomebrewIntent::parse_mas_line`: first quoted substring is the name,
the trimmed text after the `id:` marker is the id. -/
def HomebrewIntent.parse_mas_line (line : String) : Option (String × String) :=
  match HomebrewIntent.extract_quoted_value line with
  | none => none
  | some name =>
    match splitNth1 ("id:".data) line.data with
    | none => none
    | some idPart => some (name, strTrim (String.mk idPart))

/-- One iteration of the `parse_brewfile` line loop. -/
def HomebrewIntent.processLine (intent : HomebrewIntent) (rawLine : String) :
    HomebrewIntent :=
  let line := strTrim rawLine
  if strStartsWith line "#" || line.data.isEmpty then intent
  else if strStartsWith line "brew \"" then
    match HomebrewIntent.extract_quoted_value line with
    | some formula => { intent with brews := insert formula intent.brews }
    | none => intent
  else if strStartsWith line "cask \"" then
    match HomebrewIntent.extract_quoted_value line with
    | some cask => { intent with casks := insert cask intent.casks }
    | none => intent
  else if strStartsWith line "tap \"" then
    match HomebrewIntent.extract_quoted_value line with
    | some tap => { intent with taps := insert tap intent.taps }
    | none => intent
  else if strStartsWith line "mas \"" then
    match HomebrewIntent.parse_mas_line line with
    | some nv => { intent with mas_apps := insert (nv.1 ++ " (" ++ nv.2 ++ ")") intent.mas_apps }
    | none => intent
  else intent

/-- The line loop of `HomebrewIntent::parse_brewfile`. -/
def HomebrewIntent.parse_brewfile_lines (ls : List String) : HomebrewIntent :=
  ls.foldl HomebrewIntent.processLine HomebrewIntent.default

/-- The pure core of `HomebrewIntent::parse_brewfile`: parse manifest text. -/
def HomebrewIntent.parse_manifest (content : String) : HomebrewIntent :=
  HomebrewIntent.parse_brewfile_lines (rustLines content)

/-- The regex scan `brew bundle --file='([^']+Brewfile)'.*` as a leftmost
search: at each position where the literal pattern text matches, the capture
is the run of non-quote characters up to the next single quote; it succeeds
when that closing quote exists and the capture is at least one character
followed by `Brewfile`. -/
def findBrewfilePathAux (pat : List Char) (suffix : List Char) :
    List Char → Option (List Char)
  | [] => none
  | c :: rest =>
    if pat.isPrefixOf (c :: rest) then
      let after := (c :: rest).drop pat.length
      let span := after.takeWhile (fun x => x != Char.ofNat 39)
      if after.any (fun x => x == Char.ofNat 39)
          ∧ suffix.isSuffixOf span ∧ suffix.length < span.length then
        some span
      else findBrewfilePathAux pat suffix rest
    else findBrewfilePathAux pat suffix rest

def findBrewfilePath (content : String) : Option String :=
  (findBrewfilePathAux ("brew bundle --file=".data ++ [Char.ofNat 39])
      ("Brewfile".data) content.data).map String.mk

/-- `HomebrewIntent::parse_brewfile`, with the filesystem passed explicitly
as a partial map from paths to contents. -/
def HomebrewIntent.parse_brewfile (fs : String → Option String) (path : String) :
    Except HError HomebrewIntent :=
  match fs path with
  | none => .error (.ParseError ("Brewfile not found at: " ++ path))
  | some content => .ok (HomebrewIntent.parse_manifest content)

/-- `HomebrewIntent::extract_from_activation_script`. -/
def HomebrewIntent.extract_from_activation_script
    (fs : String → Option String) (profile : String) :
    Except HError HomebrewIntent :=
  let activate_path := profile ++ "/activate"
  match fs activate_path with
  | none => .error (.NoActivationScript activate_path)
  | some content =>
    match findBrewfilePath content with
    | some brewfile_path => HomebrewIntent.parse_brewfile fs brewfile_path
    | none => .error .BrewfileNotFound

/-- `HomebrewIntent::extract`. -/
def HomebrewIntent.extract (fs : String → Option String) (profile : String) :
    Except HError HomebrewIntent :=
  HomebrewIntent.extract_from_activation_script fs profile

/-! ### State (src/state.rs) -/

/-- What is actually installed via Homebrew right now. -/
@[ext]
structure HomebrewState where
  installed_brews : List (String × String)
  installed_casks : List (String × String)
  installed_taps : Finset String
  installed_mas_apps : Finset String
deriving DecidableEq

def HomebrewState.default : HomebrewState := ⟨[], [], ∅, ∅⟩

/-- Outcome of spawning one external process: either the spawn itself failed
with an I/O error message, or the process ran and produced a status and
stdout text. -/
structure CmdResult where
  success : Bool
  stdout : String
deriving DecidableEq, Repr

inductive Spawn where
  | fail (msg : String)
  | ran (r : CmdResult)
deriving DecidableEq, Repr

/-- The external world consulted by `HomebrewState::detect`: whether a brew
executable exists at a recognized install path, and the result of each
external command invocation. -/
structure SysWorld where
  brewInstalled : Bool
  leaves : Spawn
  listVersions : Spawn
  listCasks : Spawn
  tapCmd : Spawn
  whichMas : Spawn
  masList : Spawn
deriving DecidableEq, Repr

/-- `HomebrewState::parse_list_versions_output` on decoded text. -/
def HomebrewState.parse_list_versions_output (content : String) :
    List (String × String) :=
  (rustLines content).foldl
    (fun result line =>
      let parts := strWords line
      match parts with
      | [] => result
      | name :: rest =>
        let version := if rest.length > 0 then joinSpaces rest else "unknown"
        insertReplace result (name, version))
    []

/-- Rust `Iterator::rposition(|p| p.starts_with('('))` over the token list. -/
def rpositionParen (parts : List String) : Option Nat :=
  match parts.reverse.findIdx? (fun p => strStartsWith p "(") with
  | some j => some (parts.length - 1 - j)
  | none => none

/-- One line of `mas list` output: `<id> <name words...> (<version>)` becomes
`"<name> (<id>)"`; lines with fewer than two tokens are skipped.  (The Rust
slice `&parts[1..idx]` is modelled with `drop`/`take`.) -/
def masListLine (line : String) : Option String :=
  let parts := strWords line
  match parts with
  | id :: _ :: _ =>
    let name_parts :=
      match rpositionParen parts with
      | some idx => (parts.drop 1).take (idx - 1)
      | none => parts.drop 1
    some (joinSpaces name_parts ++ " (" ++ id ++ ")")
  | _ => none

/-- The parsing part of `HomebrewState::get_mas_apps`. -/
def parse_mas_list (content : String) : Finset String :=
  ((rustLines content).filterMap masListLine).toFinset

/-- `HomebrewState::get_installed_formulae`: `brew leaves`, then
`brew list --versions` on the leaves. -/
def HomebrewState.get_installed_formulae (w : SysWorld) :
    Except HError (List (String × String)) :=
  match w.leaves with
  | .fail e => .error (.CommandFailed ("brew leaves failed: " ++ e))
  | .ran r =>
    if !r.success then .ok []
    else
      let leaves := rustLines r.stdout
      if leaves.isEmpty then .ok []
      else
        match w.listVersions with
        | .fail e => .error (.CommandFailed ("brew list --versions failed: " ++ e))
        | .ran r2 =>
          if !r2.success then .ok []
          else .ok (HomebrewState.parse_list_versions_output r2.stdout)

/-- `HomebrewState::get_installed_casks`. -/
def HomebrewState.get_installed_casks (w : SysWorld) :
    Except HError (List (String × String)) :=
  match w.listCasks with
  | .fail e => .error (.CommandFailed ("brew list --cask failed: " ++ e))
  | .ran r =>
    if !r.success then .ok []
    else .ok (HomebrewState.parse_list_versions_output r.stdout)

/-- `HomebrewState::get_taps`. -/
def HomebrewState.get_taps (w : SysWorld) : Except HError (Finset String) :=
  match w.tapCmd with
  | .fail e => .error (.CommandFailed ("brew tap failed: " ++ e))
  | .ran r =>
    if !r.success then .ok ∅
    else .ok (rustLines r.stdout).toFinset

/-- `HomebrewState::get_mas_apps`: probe for `mas` via `which`, then run
`mas list`. -/
def HomebrewState.get_mas_apps (w : SysWorld) : Except HError (Finset String) :=
  match w.whichMas with
  | .fail e => .error (.CommandFailed ("which mas failed: " ++ e))
  | .ran r =>
    if !r.success then .ok ∅
    else
      match w.masList with
      | .fail e => .error (.CommandFailed ("mas list failed: " ++ e))
      | .ran r2 =>
        if !r2.success then .ok ∅
        else .ok (parse_mas_list r2.stdout)

/-- `HomebrewState::detect`. -/
def HomebrewState.detect (w : SysWorld) : Except HError HomebrewState :=
  if !w.brewInstalled then .ok HomebrewState.default
  else do
    let brews ← HomebrewState.get_installed_formulae w
    let casks ← HomebrewState.get_installed_casks w
    let taps ← HomebrewState.get_taps w
    let mas ← HomebrewState.get_mas_apps w
    pure ⟨brews, casks, taps, mas⟩

/-! ### Diff (src/diff.rs) -/

structure PackageDiff where
  added : List String
  removed : List String
deriving DecidableEq, Repr

def PackageDiff.default : PackageDiff := ⟨[], []⟩

structure SetDiff where
  added : List String
  removed : List String
deriving DecidableEq, Repr

def SetDiff.default : SetDiff := ⟨[], []⟩

structure HomebrewDiffData where
  brews : PackageDiff
  casks : PackageDiff
  taps : SetDiff
  mas_apps : SetDiff
deriving DecidableEq, Repr

def HomebrewDiffData.default : HomebrewDiffData :=
  ⟨PackageDiff.default, PackageDiff.default, SetDiff.default, SetDiff.default⟩

/-- Ascending lexicographic sort of a name set (the Rust code collects the
set's elements into a vector and sorts it). -/
def sortNames (s : Finset String) : List String := s.sort (· ≤ ·)

/-- `HomebrewDiffData::compute_package_diff`: added is every intended name
whose key is absent from the installed map, removed is every installed key
absent from the intended set; both sorted. -/
def HomebrewDiffData.compute_package_diff
    (installed : List (String × String)) (intended : Finset String) :
    PackageDiff :=
  { added := sortNames (intended.filter (fun pkg => pkg ∉ mapKeys installed)),
    removed := sortNames ((mapKeys installed).filter (fun pkg => pkg ∉ intended)) }

/-- `HomebrewDiffData::compute_set_diff`. -/
def HomebrewDiffData.compute_set_diff (current intended : Finset String) :
    SetDiff :=
  { added := sortNames (intended \ current),
    removed := sortNames (current \ intended) }

/-- `HomebrewDiffData::compute`. -/
def HomebrewDiffData.compute (current_state : HomebrewState)
    (nix_intent : HomebrewIntent) : HomebrewDiffData :=
  { brews := HomebrewDiffData.compute_package_diff
      current_state.installed_brews nix_intent.brews,
    casks := HomebrewDiffData.compute_package_diff
      current_state.installed_casks nix_intent.casks,
    taps := HomebrewDiffData.compute_set_diff
      current_state.installed_taps nix_intent.taps,
    mas_apps := HomebrewDiffData.compute_set_diff
      current_state.installed_mas_apps nix_intent.mas_apps }

/-- `HomebrewDiffData::has_changes`. -/
def HomebrewDiffData.has_changes (d : HomebrewDiffData) : Bool :=
  !d.brews.added.isEmpty || !d.brews.removed.isEmpty
    || !d.casks.added.isEmpty || !d.casks.removed.isEmpty
    || !d.taps.added.isEmpty || !d.taps.removed.isEmpty
    || !d.mas_apps.added.isEmpty || !d.mas_apps.removed.isEmpty

/-- `HomebrewDiffData::total_changes`. -/
def HomebrewDiffData.total_changes (d : HomebrewDiffData) : Nat :=
  d.brews.added.length + d.brews.removed.length
    + d.casks.added.length + d.casks.removed.length
    + d.taps.added.length + d.taps.removed.length
    + d.mas_apps.added.length + d.mas_apps.removed.length

/-- The eight added/removed lists of a report. -/
def diffLists (d : HomebrewDiffData) : List (List String) :=
  [d.brews.added, d.brews.removed, d.casks.added, d.casks.removed,
    d.taps.added, d.taps.removed, d.mas_apps.added, d.mas_apps.removed]

/-! ### Display (src/display.rs)

The sink is modelled as the list of lines written (styling stripped, since
color markers are presentation only); each `writeln!` appends one line and
bumps the source's `lines_written` counter. -/

/-- One `writeln!` with its `lines_written += 1`. -/
def writeLine (acc : List String × Nat) (line : String) : List String × Nat :=
  (acc.1 ++ [line], acc.2 + 1)

/-- The per-entry loop of a section: one marked line per entry. -/
def writeEntries (marker : String) (names : List String)
    (acc : List String × Nat) : List String × Nat :=
  names.foldl (fun a n => writeLine a ("[" ++ marker ++ "] " ++ n)) acc

/-- One `if !empty { header; loop }` block of `write_diff`. -/
def emitSection (header marker : String) (names : List String)
    (acc : List String × Nat) : List String × Nat :=
  if names.isEmpty then acc
  else writeEntries marker names (writeLine acc header)

/-- The added-section guard of `write_diff` (condition order as in source). -/
def hasAddedAny (d : HomebrewDiffData) : Bool :=
  !d.brews.added.isEmpty || !d.casks.added.isEmpty
    || !d.taps.added.isEmpty || !d.mas_apps.added.isEmpty

/-- The removed-section guard of `write_diff`. -/
def hasRemovedAny (d : HomebrewDiffData) : Bool :=
  !d.brews.removed.isEmpty || !d.casks.removed.isEmpty
    || !d.taps.removed.isEmpty || !d.mas_apps.removed.isEmpty

/-- `display::write_diff`: the written lines and the returned line count. -/
def write_diff (d : HomebrewDiffData) : List String × Nat :=
  if !d.has_changes then ([], 0)
  else
    let a0 : List String × Nat := ([], 0)
    let a1 :=
      if hasAddedAny d then
        let b0 := writeLine a0 "ADDED"
        let b1 := emitSection "Taps" "A" d.taps.added b0
        let b2 := emitSection "Formulae" "A" d.brews.added b1
        let b3 := emitSection "Casks" "A" d.casks.added b2
        let b4 := emitSection "App Store" "A" d.mas_apps.added b3
        if hasRemovedAny d then writeLine b4 "" else b4
      else a0
    if hasRemovedAny d then
      let c0 := writeLine a1 "REMOVED"
      let c1 := emitSection "Taps" "R" d.taps.removed c0
      let c2 := emitSection "Formulae" "R" d.brews.removed c1
      let c3 := emitSection "Casks" "R" d.casks.removed c2
      emitSection "App Store" "R" d.mas_apps.removed c3
    else a1

/-- `display::write_diff_with_header`: two profile-path lines and a blank
line, then the plain diff. -/
def write_diff_with_header (current_profile new_profile : String)
    (d : HomebrewDiffData) : List String × Nat :=
  let header := ["<<< " ++ current_profile, ">>> " ++ new_profile, ""]
  let inner := write_diff d
  (header ++ inner.1, 3 + inner.2)

/-- `display::write_stats`: nothing without changes, otherwise a spacer line
followed by the summary line over formulae, casks and taps. -/
def write_stats (d : HomebrewDiffData) : List String :=
  if !d.has_changes then []
  else
    let total_added :=
      d.brews.added.length + d.casks.added.length + d.taps.added.length
    let total_removed :=
      d.brews.removed.length + d.casks.removed.length + d.taps.removed.length
    ["",
      "HOMEBREW: " ++ toString total_added ++ " added, "
        ++ toString total_removed ++ " removed"]

/-! ### Claim-side renderings, used to compare the code against the claims'
words (refinement definitions, not translations of the source) -/

/-- One sub-section as the claims describe it: its own sub-header and one
marked line per entry, nothing when there are no entries. -/
def claimSection (header marker : String) (names : List String) : List String :=
  if names.isEmpty then []
  else header :: names.map (fun n => "[" ++ marker ++ "] " ++ n)

/-- The ADDED block in the claims' sub-order taps, formulae, casks,
app-store. -/
def claimAddedBlock (d : HomebrewDiffData) : List String :=
  "ADDED" :: (claimSection "Taps" "A" d.taps.added
    ++ claimSection "Formulae" "A" d.brews.added
    ++ claimSection "Casks" "A" d.casks.added
    ++ claimSection "App Store" "A" d.mas_apps.added)

/-- The REMOVED block with the identical sub-ordering. -/
def claimRemovedBlock (d : HomebrewDiffData) : List String :=
  "REMOVED" :: (claimSection "Taps" "R" d.taps.removed
    ++ claimSection "Formulae" "R" d.brews.removed
    ++ claimSection "Casks" "R" d.casks.removed
    ++ claimSection "App Store" "R" d.mas_apps.removed)

/-- Claim C3 as literally stated: whenever the report has changes, an ADDED
block is written, then a blank separator whenever any removals exist, then a
REMOVED block; the count is the number of lines. -/
def write_diff_claim (d : HomebrewDiffData) : List String × Nat :=
  if !d.has_changes then ([], 0)
  else
    let lns := claimAddedBlock d
      ++ (if hasRemovedAny d then [""] else [])
      ++ (if hasRemovedAny d then claimRemovedBlock d else [])
    (lns, lns.length)

/-- What the code actually writes: the ADDED block only when additions
exist, the blank separator only between two non-empty blocks, the REMOVED
block only when removals exist. -/
def actualDiffLines (d : HomebrewDiffData) : List String :=
  if !d.has_changes then []
  else
    (if hasAddedAny d then claimAddedBlock d else [])
      ++ (if hasAddedAny d && hasRemovedAny d then [""] else [])
      ++ (if hasRemovedAny d then claimRemovedBlock d else [])

/-- Claim C4 as literally stated: a single summary line when the report has
changes, nothing otherwise. -/
def write_stats_claim (d : HomebrewDiffData) : List String :=
  if !d.has_changes then []
  else
    ["HOMEBREW: "
      ++ toString (d.brews.added.length + d.casks.added.length + d.taps.added.length)
      ++ " added, "
      ++ toString (d.brews.removed.length + d.casks.removed.length + d.taps.removed.length)
      ++ " removed"]

/-- Claim C7's per-line description: first whitespace-delimited token is the
name, the remaining tokens rejoined with single spaces are the version, a
name-only line gets the sentinel version, a line without tokens contributes
nothing. -/
def claimVersionEntry (line : String) : Option (String × String) :=
  match strWords line with
  | [] => none
  | [n] => some (n, "unknown")
  | n :: ts => some (n, joinSpaces ts)

/-! ### Claim-side per-line extractors for the manifest parser, used to
characterize `parse_brewfile_lines` (each mirrors one branch of the
dispatch chain) -/

def brewOf (rawLine : String) : Option String :=
  let line := strTrim rawLine
  if strStartsWith line "#" || line.data.isEmpty then none
  else if strStartsWith line "brew \"" then
    HomebrewIntent.extract_quoted_value line
  else none

def caskOf (rawLine : String) : Option String :=
  let line := strTrim rawLine
  if strStartsWith line "#" || line.data.isEmpty then none
  else if strStartsWith line "brew \"" then none
  else if strStartsWith line "cask \"" then
    HomebrewIntent.extract_quoted_value line
  else none

def tapOf (rawLine : String) : Option String :=
  let line := strTrim rawLine
  if strStartsWith line "#" || line.data.isEmpty then none
  else if strStartsWith line "brew \"" then none
  else if strStartsWith line "cask \"" then none
  else if strStartsWith line "tap \"" then
    HomebrewIntent.extract_quoted_value line
  else none

def masOf (rawLine : String) : Option String :=
  let line := strTrim rawLine
  if strStartsWith line "#" || line.data.isEmpty then none
  else if strStartsWith line "brew \"" then none
  else if strStartsWith line "cask \"" then none
  else if strStartsWith line "tap \"" then none
  else if strStartsWith line "mas \"" then
    (HomebrewIntent.parse_mas_line line).map (fun nv => nv.1 ++ " (" ++ nv.2 ++ ")")
  else none

/-! ## Helper lemmas -/

theorem sortNames_toFinset (s : Finset String) : (sortNames s).toFinset = s :=
  Finset.sort_toFinset _ s

theorem sortNames_sorted (s : Finset String) : (sortNames s).Sorted (· ≤ ·) :=
  Finset.sort_sorted _ s

theorem sortNames_nodup (s : Finset String) : (sortNames s).Nodup :=
  Finset.sort_nodup _ s

theorem mem_sortNames {s : Finset String} {a : String} :
    a ∈ sortNames s ↔ a ∈ s :=
  Finset.mem_sort _

/-! ## C2 -/

/-- C2: for every diff report, `has_changes` is true iff at least one of the
eight added/removed lists is non-empty, and `has_changes` is false iff
`total_changes` (the sum of the eight lengths) equals zero. -/
theorem C2_has_changes_total (d : HomebrewDiffData) :
    (d.has_changes = true ↔ d.total_changes ≠ 0)
    ∧ (d.has_changes = false ↔ d.total_changes = 0)
    ∧ (d.has_changes = true ↔
        (d.brews.added ≠ [] ∨ d.brews.removed ≠ []
          ∨ d.casks.added ≠ [] ∨ d.casks.removed ≠ []
          ∨ d.taps.added ≠ [] ∨ d.taps.removed ≠ []
          ∨ d.mas_apps.added ≠ [] ∨ d.mas_apps.removed ≠ [])) := by
  obtain ⟨⟨ba, br⟩, ⟨ca, cr⟩, ⟨ta, tr⟩, ⟨ma, mr⟩⟩ := d
  simp only [HomebrewDiffData.has_changes, HomebrewDiffData.total_changes,
    Bool.or_eq_true, Bool.not_eq_true', List.isEmpty_eq_false,
    Bool.or_eq_false_iff, Bool.not_eq_false', List.isEmpty_eq_true,
    add_eq_zero, List.length_eq_zero, ne_eq]
  tauto

/-- Witness for C2 at the empty report. -/
theorem C2_has_changes_total_witness :
    HomebrewDiffData.default.has_changes = false
      ↔ HomebrewDiffData.default.total_changes = 0 :=
  (C2_has_changes_total HomebrewDiffData.default).2.1

/-! ## C10 -/

/-- C10: `has_packages` is true iff one of the formula, cask or app-store
sets is non-empty; the tap set is never consulted, so a taps-only intent
reports no packages. -/
theorem C10_has_packages (i : HomebrewIntent) (t : Finset String) :
    (i.has_packages = true ↔ (i.brews ≠ ∅ ∨ i.casks ≠ ∅ ∨ i.mas_apps ≠ ∅))
    ∧ HomebrewIntent.has_packages ⟨i.brews, i.casks, t, i.mas_apps⟩ = i.has_packages
    ∧ HomebrewIntent.has_packages ⟨∅, ∅, t, ∅⟩ = false := by
  refine ⟨?_, rfl, ?_⟩ <;>
    simp [HomebrewIntent.has_packages, or_assoc]

/-- Witness for C10 at a taps-only intent. -/
theorem C10_has_packages_witness :
    HomebrewIntent.has_packages ⟨∅, ∅, {"homebrew/core"}, ∅⟩ = false :=
  (C10_has_packages HomebrewIntent.default {"homebrew/core"}).2.2

/-! ## C8 -/

/-- C8: when the profile directory holds no activation script, extraction
fails with `NoActivationScript` carrying the attempted path, and the result
does not depend on any other file (no manifest parsing is performed). -/
theorem C8_missing_activation_script (fs : String → Option String)
    (profile : String) (h : fs (profile ++ "/activate") = none) :
    HomebrewIntent.extract fs profile
        = .error (.NoActivationScript (profile ++ "/activate"))
      ∧ ∀ fs' : String → Option String, fs' (profile ++ "/activate") = none →
          HomebrewIntent.extract fs profile = HomebrewIntent.extract fs' profile := by
  constructor
  · simp [HomebrewIntent.extract, HomebrewIntent.extract_from_activation_script, h]
  · intro fs' h'
    simp [HomebrewIntent.extract, HomebrewIntent.extract_from_activation_script, h, h']

/-- Witness for C8 on an empty filesystem. -/
theorem C8_missing_activation_script_witness :
    ((fun _ : String => (none : Option String)) ("/profiles/system" ++ "/activate")
        = none)
    ∧ HomebrewIntent.extract (fun _ => none) "/profiles/system"
        = .error (.NoActivationScript ("/profiles/system" ++ "/activate")) :=
  ⟨rfl, (C8_missing_activation_script (fun _ => none) "/profiles/system" rfl).1⟩

/-! ## C9 -/

/-- C9: tool absence yields the empty default state as a success; a query
that spawns but exits non-zero yields an empty sub-result (non-fatal); only
a failure to spawn produces a fatal `CommandFailed` error from `detect`. -/
theorem C9_detect_asymmetry (w : SysWorld) :
    (w.brewInstalled = false → HomebrewState.detect w = .ok HomebrewState.default)
    ∧ (∀ r, w.leaves = .ran r → r.success = false →
        HomebrewState.get_installed_formulae w = .ok [])
    ∧ (∀ r, w.listCasks = .ran r → r.success = false →
        HomebrewState.get_installed_casks w = .ok [])
    ∧ (∀ r, w.tapCmd = .ran r → r.success = false →
        HomebrewState.get_taps w = .ok ∅)
    ∧ (∀ r r2, w.whichMas = .ran r → r.success = true → w.masList = .ran r2 →
        r2.success = false → HomebrewState.get_mas_apps w = .ok ∅)
    ∧ (∀ e, w.brewInstalled = true → w.leaves = .fail e →
        HomebrewState.detect w
          = .error (.CommandFailed ("brew leaves failed: " ++ e))) := by
  refine ⟨?_, ?_, ?_, ?_, ?_, ?_⟩
  · intro h
    simp [HomebrewState.detect, h]
  · intro r hr hs
    simp [HomebrewState.get_installed_formulae, hr, hs]
  · intro r hr hs
    simp [HomebrewState.get_installed_casks, hr, hs]
  · intro r hr hs
    simp [HomebrewState.get_taps, hr, hs]
  · intro r r2 hr hs hr2 hs2
    simp [HomebrewState.get_mas_apps, hr, hs, hr2, hs2]
  · intro e hb hl
    simp [HomebrewState.detect, HomebrewState.get_installed_formulae, hb, hl,
      Bind.bind, Except.bind]

/-- Witness for C9: a world without brew, and a world where `brew leaves`
cannot be spawned. -/
theorem C9_detect_asymmetry_witness :
    HomebrewState.detect
        ⟨false, .ran ⟨true, ""⟩, .ran ⟨true, ""⟩, .ran ⟨true, ""⟩,
          .ran ⟨true, ""⟩, .ran ⟨true, ""⟩, .ran ⟨true, ""⟩⟩
      = .ok HomebrewState.default
    ∧ HomebrewState.detect
        ⟨true, .fail "spawn error", .ran ⟨true, ""⟩, .ran ⟨true, ""⟩,
          .ran ⟨true, ""⟩, .ran ⟨true, ""⟩, .ran ⟨true, ""⟩⟩
      = .error (.CommandFailed ("brew leaves failed: " ++ "spawn error")) :=
  ⟨(C9_detect_asymmetry _).1 rfl,
    (C9_detect_asymmetry _).2.2.2.2.2 "spawn error" rfl rfl⟩

/-! ## C1 -/

/-- C1: for every state and intent the computed diff has, in each category,
`added` = intent names minus state names and `removed` = state names minus
intent names (the state side of the formula/cask categories being the map's
key set, with versions never consulted); all eight lists are sorted
ascending, duplicate-free, and added/removed are disjoint per category. -/
theorem C1_compute_diff_correct (s : HomebrewState) (i : HomebrewIntent)
    (d : HomebrewDiffData) (hd : d = HomebrewDiffData.compute s i) :
    (d.brews.added.toFinset = i.brews \ mapKeys s.installed_brews
      ∧ d.brews.removed.toFinset = mapKeys s.installed_brews \ i.brews
      ∧ d.casks.added.toFinset = i.casks \ mapKeys s.installed_casks
      ∧ d.casks.removed.toFinset = mapKeys s.installed_casks \ i.casks
      ∧ d.taps.added.toFinset = i.taps \ s.installed_taps
      ∧ d.taps.removed.toFinset = s.installed_taps \ i.taps
      ∧ d.mas_apps.added.toFinset = i.mas_apps \ s.installed_mas_apps
      ∧ d.mas_apps.removed.toFinset = s.installed_mas_apps \ i.mas_apps)
    ∧ (∀ l ∈ diffLists d, l.Sorted (· ≤ ·) ∧ l.Nodup)
    ∧ (List.Disjoint d.brews.added d.brews.removed
      ∧ List.Disjoint d.casks.added d.casks.removed
      ∧ List.Disjoint d.taps.added d.taps.removed
      ∧ List.Disjoint d.mas_apps.added d.mas_apps.removed)
    ∧ (∀ m, mapKeys m = mapKeys s.installed_brews →
        HomebrewDiffData.compute_package_diff m i.brews = d.brews)
    ∧ (∀ m, mapKeys m = mapKeys s.installed_casks →
        HomebrewDiffData.compute_package_diff m i.casks = d.casks) := by
  subst hd
  have hsd : ∀ (a b : Finset String), a.filter (fun x => x ∉ b) = a \ b :=
    fun a b => (Finset.sdiff_eq_filter a b).symm
  have hdisj : ∀ (a b : Finset String),
      List.Disjoint (sortNames (a \ b)) (sortNames (b \ a)) := by
    intro a b x hx hx'
    rw [mem_sortNames, Finset.mem_sdiff] at hx hx'
    exact hx.2 hx'.1
  refine ⟨⟨?_, ?_, ?_, ?_, ?_, ?_, ?_, ?_⟩, ?_, ⟨?_, ?_, ?_, ?_⟩, ?_, ?_⟩
  · simp [HomebrewDiffData.compute, HomebrewDiffData.compute_package_diff,
      sortNames_toFinset, hsd]
  · simp [HomebrewDiffData.compute, HomebrewDiffData.compute_package_diff,
      sortNames_toFinset, hsd]
  · simp [HomebrewDiffData.compute, HomebrewDiffData.compute_package_diff,
      sortNames_toFinset, hsd]
  · simp [HomebrewDiffData.compute, HomebrewDiffData.compute_package_diff,
      sortNames_toFinset, hsd]
  · simp [HomebrewDiffData.compute, HomebrewDiffData.compute_set_diff,
      sortNames_toFinset]
  · simp [HomebrewDiffData.compute, HomebrewDiffData.compute_set_diff,
      sortNames_toFinset]
  · simp [HomebrewDiffData.compute, HomebrewDiffData.compute_set_diff,
      sortNames_toFinset]
  · simp [HomebrewDiffData.compute, HomebrewDiffData.compute_set_diff,
      sortNames_toFinset]
  · intro l hl
    simp only [diffLists, HomebrewDiffData.compute,
      HomebrewDiffData.compute_package_diff, HomebrewDiffData.compute_set_diff,
      List.mem_cons, List.not_mem_nil, or_false] at hl
    rcases hl with h | h | h | h | h | h | h | h <;> subst h <;>
      exact ⟨sortNames_sorted _, sortNames_nodup _⟩
  · simp only [HomebrewDiffData.compute, HomebrewDiffData.compute_package_diff,
      hsd]
    exact hdisj _ _
  · simp only [HomebrewDiffData.compute, HomebrewDiffData.compute_package_diff,
      hsd]
    exact hdisj _ _
  · simp only [HomebrewDiffData.compute, HomebrewDiffData.compute_set_diff]
    exact hdisj _ _
  · simp only [HomebrewDiffData.compute, HomebrewDiffData.compute_set_diff]
    exact hdisj _ _
  · intro m hm
    simp [HomebrewDiffData.compute, HomebrewDiffData.compute_package_diff, hm]
  · intro m hm
    simp [HomebrewDiffData.compute, HomebrewDiffData.compute_package_diff, hm]

/-- Witness for C1: a different version string, same key set, same diff. -/
theorem C1_compute_diff_correct_witness :
    mapKeys [("wget", "9.9")] = mapKeys [("wget", "1.21.3")]
    ∧ HomebrewDiffData.compute_package_diff [("wget", "9.9")] {"wget", "curl"}
      = (HomebrewDiffData.compute ⟨[("wget", "1.21.3")], [], ∅, ∅⟩
          ⟨{"wget", "curl"}, ∅, ∅, ∅⟩).brews :=
  ⟨by decide,
    (C1_compute_diff_correct ⟨[("wget", "1.21.3")], [], ∅, ∅⟩
        ⟨{"wget", "curl"}, ∅, ∅, ∅⟩ _ rfl).2.2.2.1 [("wget", "9.9")] (by decide)⟩

/-! ## Display lemmas -/

theorem writeLine_spec (acc : List String × Nat) (line : String) :
    writeLine acc line = (acc.1 ++ [line], acc.2 + 1) := rfl

theorem writeEntries_spec (marker : String) (names : List String)
    (acc : List String × Nat) :
    writeEntries marker names acc
      = (acc.1 ++ names.map (fun n => "[" ++ marker ++ "] " ++ n),
          acc.2 + names.length) := by
  induction names generalizing acc with
  | nil => simp [writeEntries]
  | cons n ns ih =>
    show writeEntries marker ns (writeLine acc _) = _
    rw [ih, writeLine_spec]
    simp [List.append_assoc]
    omega

theorem emitSection_spec (header marker : String) (names : List String)
    (acc : List String × Nat) :
    emitSection header marker names acc
      = (acc.1 ++ claimSection header marker names,
          acc.2 + (claimSection header marker names).length) := by
  unfold emitSection claimSection
  cases names with
  | nil => simp
  | cons n ns =>
    rw [if_neg (by simp), if_neg (by simp), writeEntries_spec, writeLine_spec]
    simp [List.append_assoc]
    omega

/-- `write_diff` produces exactly the block-structured line list, with the
returned count equal to its length. -/
theorem write_diff_eq (d : HomebrewDiffData) :
    write_diff d = (actualDiffLines d, (actualDiffLines d).length) := by
  unfold write_diff actualDiffLines
  cases hc : d.has_changes with
  | false => simp
  | true =>
    simp only [Bool.not_true, Bool.false_eq_true, if_false]
    cases hA : hasAddedAny d <;> cases hR : hasRemovedAny d <;>
      simp [emitSection_spec, writeLine_spec, claimAddedBlock,
        claimRemovedBlock, List.append_assoc, List.length_append,
        Prod.ext_iff] <;>
      omega

/-! ## C3 -/

/-- C3 counterexample: on a removal-only report the code writes no ADDED
block and no blank separator, but the claim as stated predicts both. -/
theorem C3_write_diff_counterexample :
    write_diff ⟨⟨[], ["git"]⟩, ⟨[], []⟩, ⟨[], []⟩, ⟨[], []⟩⟩
      ≠ write_diff_claim ⟨⟨[], ["git"]⟩, ⟨[], []⟩, ⟨[], []⟩, ⟨[], []⟩⟩ := by
  decide

/-- C3 (amended): `write_diff` writes nothing and returns 0 without changes;
otherwise it writes the ADDED block (sub-order taps, formulae, casks,
app-store, `[A]` markers) only when additions exist, a blank separator only
when both additions and removals exist, and the REMOVED block (identical
sub-ordering, `[R]` markers) when removals exist; the returned count always
equals the number of lines written. -/
theorem C3_write_diff_blocks (d : HomebrewDiffData) :
    ((write_diff d).2 = (write_diff d).1.length)
    ∧ (d.has_changes = false → write_diff d = ([], 0))
    ∧ (d.has_changes = true →
        (write_diff d).1
          = (if hasAddedAny d then claimAddedBlock d else [])
            ++ (if hasAddedAny d && hasRemovedAny d then [""] else [])
            ++ (if hasRemovedAny d then claimRemovedBlock d else [])) := by
  have h := write_diff_eq d
  refine ⟨by rw [h], ?_, ?_⟩ <;> intro hc <;> rw [h] <;>
    simp [actualDiffLines, hc]

/-- Witness for C3 on a report with both additions and removals. -/
theorem C3_write_diff_blocks_witness :
    (write_diff ⟨⟨["curl", "wget"], ["git"]⟩, ⟨[], []⟩, ⟨[], []⟩, ⟨[], []⟩⟩).1
      = (if hasAddedAny ⟨⟨["curl", "wget"], ["git"]⟩, ⟨[], []⟩, ⟨[], []⟩, ⟨[], []⟩⟩
          then claimAddedBlock ⟨⟨["curl", "wget"], ["git"]⟩, ⟨[], []⟩, ⟨[], []⟩, ⟨[], []⟩⟩
          else [])
        ++ (if hasAddedAny ⟨⟨["curl", "wget"], ["git"]⟩, ⟨[], []⟩, ⟨[], []⟩, ⟨[], []⟩⟩
              && hasRemovedAny ⟨⟨["curl", "wget"], ["git"]⟩, ⟨[], []⟩, ⟨[], []⟩, ⟨[], []⟩⟩
            then [""] else [])
        ++ (if hasRemovedAny ⟨⟨["curl", "wget"], ["git"]⟩, ⟨[], []⟩, ⟨[], []⟩, ⟨[], []⟩⟩
            then claimRemovedBlock ⟨⟨["curl", "wget"], ["git"]⟩, ⟨[], []⟩, ⟨[], []⟩, ⟨[], []⟩⟩
            else []) :=
  (C3_write_diff_blocks _).2.2 (by decide)

/-! ## C4 -/

/-- C4 counterexample: with changes present the code writes a blank spacer
line before the summary line, so the output is not a single line. -/
theorem C4_write_stats_counterexample :
    write_stats ⟨⟨["wget"], []⟩, ⟨[], []⟩, ⟨[], []⟩, ⟨[], []⟩⟩
      ≠ write_stats_claim ⟨⟨["wget"], []⟩, ⟨[], []⟩, ⟨[], []⟩, ⟨[], []⟩⟩ := by
  decide

/-- C4 (amended): with at least one change the summary renderer writes a
blank line followed by a single line whose added/removed totals are summed
over formulae, casks and taps only; app-store apps never influence the
output; without changes it writes nothing. -/
theorem C4_write_stats_totals (d : HomebrewDiffData) :
    (d.has_changes = true →
      write_stats d
        = ["",
            "HOMEBREW: "
              ++ toString (d.brews.added.length + d.casks.added.length
                  + d.taps.added.length)
              ++ " added, "
              ++ toString (d.brews.removed.length + d.casks.removed.length
                  + d.taps.removed.length)
              ++ " removed"])
    ∧ (d.has_changes = false → write_stats d = [])
    ∧ (∀ d' : HomebrewDiffData, d'.brews = d.brews → d'.casks = d.casks →
        d'.taps = d.taps → d'.has_changes = true → d.has_changes = true →
        write_stats d' = write_stats d) := by
  refine ⟨?_, ?_, ?_⟩
  · intro hc
    simp [write_stats, hc]
  · intro hc
    simp [write_stats, hc]
  · intro d' hb hca hta hc' hc
    simp [write_stats, hc, hc', hb, hca, hta]

/-- Witness for C4 on a report with one added formula and one removed cask. -/
theorem C4_write_stats_totals_witness :
    write_stats ⟨⟨["wget"], []⟩, ⟨[], ["firefox"]⟩, ⟨[], []⟩, ⟨[], []⟩⟩
      = ["", "HOMEBREW: 1 added, 1 removed"] := by
  have h := (C4_write_stats_totals
    ⟨⟨["wget"], []⟩, ⟨[], ["firefox"]⟩, ⟨[], []⟩, ⟨[], []⟩⟩).1 (by decide)
  simpa using h

/-! ## C7 -/

theorem parse_versions_foldl (ls : List String) (acc : List (String × String)) :
    ls.foldl
      (fun result line =>
        let parts := strWords line
        match parts with
        | [] => result
        | name :: rest =>
          let version := if rest.length > 0 then joinSpaces rest else "unknown"
          insertReplace result (name, version)) acc
    = ((ls.filterMap claimVersionEntry).foldl insertReplace acc) := by
  induction ls generalizing acc with
  | nil => rfl
  | cons l ls ih =>
    rw [List.foldl_cons, List.filterMap_cons]
    cases h : strWords l with
    | nil =>
      simp only [claimVersionEntry, h]
      exact ih _
    | cons n ts =>
      cases ts with
      | nil =>
        simp only [claimVersionEntry, h, List.length_nil, gt_iff_lt,
          Nat.lt_irrefl, if_false, List.foldl_cons]
        exact ih _
      | cons t ts' =>
        simp only [claimVersionEntry, h, List.length_cons, gt_iff_lt,
          Nat.succ_pos, if_true, List.foldl_cons]
        exact ih _

theorem splitByP_filter_blank (p : Char → Bool) (l : List Char)
    (h : l.all p = true) :
    (splitByP p l).filter (fun w => !w.isEmpty) = [] := by
  induction l with
  | nil => rfl
  | cons c cs ih =>
    rw [List.all_cons, Bool.and_eq_true] at h
    have ihc := ih h.2
    unfold splitByP
    cases hs : splitByP p cs with
    | nil => rfl
    | cons w ws =>
      rw [hs] at ihc
      simp [h.1, ihc]

theorem strWords_blank (line : String)
    (h : line.data.all Char.isWhitespace = true) : strWords line = [] := by
  unfold strWords
  rw [splitByP_filter_blank _ _ h]
  rfl

/-- C7: the version-list parser folds exactly the claim's per-line entries
into the map: first token is the name, remaining tokens rejoined with single
spaces are the version, a name-only line gets the sentinel `"unknown"`, and
blank lines contribute no entry. -/
theorem C7_parse_versions :
    (∀ content : String,
      HomebrewState.parse_list_versions_output content
        = ((rustLines content).filterMap claimVersionEntry).foldl insertReplace [])
    ∧ (∀ line : String, line.data.all Char.isWhitespace = true →
        claimVersionEntry line = none) := by
  constructor
  · intro content
    unfold HomebrewState.parse_list_versions_output
    exact parse_versions_foldl _ _
  · intro line h
    unfold claimVersionEntry
    rw [strWords_blank line h]

/-- Witness for C7: a whitespace-only line contributes nothing. -/
theorem C7_parse_versions_witness :
    ("  ".data.all Char.isWhitespace = true) ∧ claimVersionEntry "  " = none :=
  ⟨by decide, C7_parse_versions.2 "  " (by decide)⟩

/-! ## C5 -/

theorem processLine_eq (i : HomebrewIntent) (l : String) :
    HomebrewIntent.processLine i l
      = ⟨(match brewOf l with | some v => insert v i.brews | none => i.brews),
         (match caskOf l with | some v => insert v i.casks | none => i.casks),
         (match tapOf l with | some v => insert v i.taps | none => i.taps),
         (match masOf l with
          | some v => insert v i.mas_apps
          | none => i.mas_apps)⟩ := by
  unfold HomebrewIntent.processLine brewOf caskOf tapOf masOf
  by_cases h1 : (strStartsWith (strTrim l) "#" || (strTrim l).data.isEmpty) = true
  · simp [h1]
  · by_cases h2 : strStartsWith (strTrim l) "brew \"" = true
    · cases hx : HomebrewIntent.extract_quoted_value (strTrim l) <;>
        simp [h1, h2, hx]
    · by_cases h3 : strStartsWith (strTrim l) "cask \"" = true
      · cases hx : HomebrewIntent.extract_quoted_value (strTrim l) <;>
          simp [h1, h2, h3, hx]
      · by_cases h4 : strStartsWith (strTrim l) "tap \"" = true
        · cases hx : HomebrewIntent.extract_quoted_value (strTrim l) <;>
            simp [h1, h2, h3, h4, hx]
        · by_cases h5 : strStartsWith (strTrim l) "mas \"" = true
          · cases hx : HomebrewIntent.parse_mas_line (strTrim l) <;>
              simp [h1, h2, h3, h4, h5, hx]
          · simp [h1, h2, h3, h4, h5]

theorem foldl_processLine_brews (ls : List String) (i : HomebrewIntent) :
    (ls.foldl HomebrewIntent.processLine i).brews
      = i.brews ∪ (ls.filterMap brewOf).toFinset := by
  induction ls generalizing i with
  | nil => simp
  | cons l ls ih =>
    rw [List.foldl_cons, ih, List.filterMap_cons, processLine_eq]
    cases h : brewOf l <;>
      simp [h, Finset.insert_union, Finset.union_insert]

theorem foldl_processLine_casks (ls : List String) (i : HomebrewIntent) :
    (ls.foldl HomebrewIntent.processLine i).casks
      = i.casks ∪ (ls.filterMap caskOf).toFinset := by
  induction ls generalizing i with
  | nil => simp
  | cons l ls ih =>
    rw [List.foldl_cons, ih, List.filterMap_cons, processLine_eq]
    cases h : caskOf l <;>
      simp [h, Finset.insert_union, Finset.union_insert]

theorem foldl_processLine_taps (ls : List String) (i : HomebrewIntent) :
    (ls.foldl HomebrewIntent.processLine i).taps
      = i.taps ∪ (ls.filterMap tapOf).toFinset := by
  induction ls generalizing i with
  | nil => simp
  | cons l ls ih =>
    rw [List.foldl_cons, ih, List.filterMap_cons, processLine_eq]
    cases h : tapOf l <;>
      simp [h, Finset.insert_union, Finset.union_insert]

theorem foldl_processLine_mas (ls : List String) (i : HomebrewIntent) :
    (ls.foldl HomebrewIntent.processLine i).mas_apps
      = i.mas_apps ∪ (ls.filterMap masOf).toFinset := by
  induction ls generalizing i with
  | nil => simp
  | cons l ls ih =>
    rw [List.foldl_cons, ih, List.filterMap_cons, processLine_eq]
    cases h : masOf l <;>
      simp [h, Finset.insert_union, Finset.union_insert]

/-- The manifest line loop builds exactly the four sets of per-line values,
independently of fold order. -/
theorem parse_brewfile_lines_eq (ls : List String) :
    HomebrewIntent.parse_brewfile_lines ls
      = ⟨(ls.filterMap brewOf).toFinset, (ls.filterMap caskOf).toFinset,
         (ls.filterMap tapOf).toFinset, (ls.filterMap masOf).toFinset⟩ := by
  refine HomebrewIntent.ext ?_ ?_ ?_ ?_
  · rw [HomebrewIntent.parse_brewfile_lines, foldl_processLine_brews]
    simp [HomebrewIntent.default]
  · rw [HomebrewIntent.parse_brewfile_lines, foldl_processLine_casks]
    simp [HomebrewIntent.default]
  · rw [HomebrewIntent.parse_brewfile_lines, foldl_processLine_taps]
    simp [HomebrewIntent.default]
  · rw [HomebrewIntent.parse_brewfile_lines, foldl_processLine_mas]
    simp [HomebrewIntent.default]

/-- C5: parsing a manifest is invariant under permutation of its lines, and
parsing the same text twice is deterministic. -/
theorem C5_parse_order_invariant :
    (∀ (content : String) (ls : List String),
        (rustLines content).Perm ls →
        HomebrewIntent.parse_manifest content
          = HomebrewIntent.parse_brewfile_lines ls)
    ∧ (∀ content : String,
        HomebrewIntent.parse_manifest content
          = HomebrewIntent.parse_manifest content) := by
  refine ⟨?_, fun _ => rfl⟩
  intro content ls h
  rw [HomebrewIntent.parse_manifest, parse_brewfile_lines_eq,
    parse_brewfile_lines_eq]
  simp only [HomebrewIntent.mk.injEq]
  exact ⟨List.toFinset_eq_of_perm _ _ (h.filterMap _),
    List.toFinset_eq_of_perm _ _ (h.filterMap _),
    List.toFinset_eq_of_perm _ _ (h.filterMap _),
    List.toFinset_eq_of_perm _ _ (h.filterMap _)⟩

/-- Witness for C5 on a two-line manifest and its reversal. -/
theorem C5_parse_order_invariant_witness :
    (rustLines "tap \"homebrew/core\"\nbrew \"wget\"").Perm
        ["brew \"wget\"", "tap \"homebrew/core\""]
    ∧ HomebrewIntent.parse_manifest "tap \"homebrew/core\"\nbrew \"wget\""
        = HomebrewIntent.parse_brewfile_lines
            ["brew \"wget\"", "tap \"homebrew/core\""] := by
  have hp : (rustLines "tap \"homebrew/core\"\nbrew \"wget\"").Perm
      ["brew \"wget\"", "tap \"homebrew/core\""] := by decide
  exact ⟨hp, C5_parse_order_invariant.1 _ _ hp⟩

/-! ## C6 -/

theorem strStartsWith_false {line pre other : String}
    (h : strStartsWith line pre = true)
    (h1 : ¬ (other.data <+: pre.data)) (h2 : ¬ (pre.data <+: other.data)) :
    strStartsWith line other = false := by
  rw [strStartsWith, List.isPrefixOf_iff_prefix] at h
  rw [strStartsWith, Bool.eq_false_iff]
  intro habs
  rw [List.isPrefixOf_iff_prefix] at habs
  rcases List.prefix_or_prefix_of_prefix habs h with hh | hh
  · exact h1 hh
  · exact h2 hh

/-- C6: a well-formed `mas "` line contributes exactly the composite entry
built from its first quoted substring and the trimmed text after the `id:`
marker; in particular the Xcode scenario from the spec. -/
theorem C6_mas_line (line name : String) (idPart : List Char)
    (htrim : strTrim line = line)
    (hstart : strStartsWith line "mas \"" = true)
    (hname : HomebrewIntent.extract_quoted_value line = some name)
    (hid : splitNth1 ("id:".data) line.data = some idPart) :
    (HomebrewIntent.parse_brewfile_lines [line]).mas_apps
        = {name ++ " (" ++ strTrim (String.mk idPart) ++ ")"}
    ∧ (HomebrewIntent.parse_brewfile_lines
          ["mas \"Xcode\", id: 497799835"]).mas_apps
        = {"Xcode (497799835)"} := by
  constructor
  · have hpre : "mas \"".data <+: line.data := by
      have h := hstart
      rwa [strStartsWith, List.isPrefixOf_iff_prefix] at h
    have hne : line.data.isEmpty = false := by
      rcases hpre with ⟨t, ht⟩
      rw [← ht]
      simp
    have hh : strStartsWith line "#" = false :=
      strStartsWith_false hstart (by decide) (by decide)
    have hb : strStartsWith line "brew \"" = false :=
      strStartsWith_false hstart (by decide) (by decide)
    have hc2 : strStartsWith line "cask \"" = false :=
      strStartsWith_false hstart (by decide) (by decide)
    have ht2 : strStartsWith line "tap \"" = false :=
      strStartsWith_false hstart (by decide) (by decide)
    rw [HomebrewIntent.parse_brewfile_lines, List.foldl_cons, List.foldl_nil,
      HomebrewIntent.processLine]
    simp [htrim, hh, hne, hb, hc2, ht2, hstart, HomebrewIntent.parse_mas_line,
      hname, hid, HomebrewIntent.default]
  · decide

/-- Witness for C6 at the spec's Xcode line. -/
theorem C6_mas_line_witness :
    (HomebrewIntent.parse_brewfile_lines
        ["mas \"Xcode\", id: 497799835"]).mas_apps
      = {"Xcode" ++ " (" ++ strTrim (String.mk (" 497799835".data)) ++ ")"} :=
  (C6_mas_line "mas \"Xcode\", id: 497799835" "Xcode" (" 497799835".data)
    (by decide) (by decide) (by decide) (by decide)).1
